import Mathlib

/-!
# Verification of the qlite caching / dispatch pipeline

Shallow embedding of the core of the qlite reverse proxy
(`internal/model`, `internal/cache`, `internal/pipeline`, `internal/sse`,
`internal/provider`) together with proofs of the behavioural claims about
it.  Go machine integers are modelled as `Int` (token counts never touch
the 64-bit boundary in any claim), `float64` request parameters
(`temperature`, `top_p`, cost) are modelled as `Rat` (the claims only use
order and equality, which agree with the float order on the values
involved), and `time.Time` is modelled as an `Int` instant, with Go's
`time.After` being the strict order.
-/

set_option maxHeartbeats 1000000

namespace QLite

/-! ## Canonical data model (package `internal/model`) -/

/-- `model.Message`: one chat message. -/
structure Message where
  role : String
  content : String
deriving DecidableEq, Repr

/-- `model.Usage`: token usage triple. -/
structure Usage where
  promptTokens : Int
  completionTokens : Int
  totalTokens : Int
deriving DecidableEq, Repr

/-- `model.Choice`: one completion choice of a buffered response. -/
structure Choice where
  index : Int
  message : Message
  finishReason : String
deriving DecidableEq, Repr

/-- `model.ChatResponse`: canonical buffered chat-completion response. -/
structure ChatResponse where
  id : String
  object : String
  created : Int
  model : String
  choices : List Choice
  usage : Usage
deriving DecidableEq, Repr

/-- `model.Delta`: incremental content of a streaming chunk. -/
structure Delta where
  role : String
  content : String
deriving DecidableEq, Repr

/-- `model.StreamChoice`: one choice of a streaming chunk. -/
structure StreamChoice where
  index : Int
  delta : Delta
  finishReason : String
deriving DecidableEq, Repr

/-- `model.ChatStreamChunk`: canonical streaming chunk. -/
structure ChatStreamChunk where
  id : String
  object : String
  created : Int
  model : String
  choices : List StreamChoice
  usage : Option Usage
deriving DecidableEq, Repr

/-- `model.ChatRequest`: canonical chat-completion request.  Optional scalar
fields are `Option` (Go nil-able pointers), distinguishing absent from zero. -/
structure ChatRequest where
  model : String
  messages : List Message
  temperature : Option Rat
  topP : Option Rat
  n : Option Int := none
  stream : Bool := false
  maxTokens : Option Int := none
  user : String := ""
deriving DecidableEq, Repr

/-- `model.ProxyResponse`: response wrapper carrying telemetry fields. -/
structure ProxyResponse where
  chatResponse : Option ChatResponse
  outputTokens : Int
  cost : Rat
  cacheStatus : String
  providerName : String
deriving DecidableEq, Repr

/-! ## The gated SSE writer (`internal/pipeline/semantic_dispatch.go`, `gatedWriter`)

The `gatedWriter` guards three booleans with one mutex:

* `gate` — a one-shot latch; we record whether it has been opened
  (`close(g.gate)` in `claim`/`release`; a `nil` gate counts as closed),
* `claimed` — set by `claim()` when the semantic winner takes the stream,
* `writing` — set by the first dispatch write that passes the gate.

Every mutation happens inside the mutex, so any concurrent execution is
equivalent to a serialized sequence of three atomic critical sections:

* `GWOp.claim` — body of `claim()`: fail if `writing`, else set `claimed`
  and open the gate;
* `GWOp.release` — body of `release()`: open the gate;
* `GWOp.gatePass` — the post-`<-gate` critical section of `waitForGate()`
  (the head of `WriteEvent`/`Done`): if `claimed`, report failure (the
  caller returns `context.Canceled`), else set `writing` and let the inner
  write proceed.  While the gate is still closed the goroutine stays
  blocked on `<-gate`; we model an attempt in that situation as an inert
  `blocked` result (no state change), which over-approximates the real
  interleavings. -/

/-- State of the `gatedWriter` booleans (all guarded by `g.mu`). -/
structure GWState where
  gateOpen : Bool
  claimed : Bool
  writing : Bool
deriving DecidableEq, Repr

/-- Initial `gatedWriter` state: gate closed, nothing claimed or written. -/
def gwInit : GWState := ⟨false, false, false⟩

/-- The three serialized critical sections of the gated writer. -/
inductive GWOp
  | claim
  | release
  | gatePass
deriving DecidableEq, Repr

/-- Result of one critical section: `ok` (claim succeeded / write allowed),
`failed` (claim lost the race / write must return `context.Canceled`),
`blocked` (the writer is still parked on the closed gate). -/
inductive GWRes
  | ok
  | failed
  | blocked
deriving DecidableEq, Repr

/-- One serialized critical section of the gated writer, straight from
`gatedWriter.claim`, `gatedWriter.release` and `gatedWriter.waitForGate`. -/
def gwStep : GWState → GWOp → GWState × GWRes
  | s, .claim =>
      if s.writing then (s, .failed)
      else ({ s with claimed := true, gateOpen := true }, .ok)
  | s, .release => ({ s with gateOpen := true }, .ok)
  | s, .gatePass =>
      if s.gateOpen = false then (s, .blocked)
      else if s.claimed then (s, .failed)
      else ({ s with writing := true }, .ok)

/-- Run a serialized sequence of critical sections, collecting results. -/
def gwRun : GWState → List GWOp → GWState × List GWRes
  | s, [] => (s, [])
  | s, op :: ops =>
      let p := gwStep s op
      let q := gwRun p.1 ops
      (q.1, p.2 :: q.2)

/-- The trace of a run: each operation paired with its result. -/
def gwTrace (s : GWState) (ops : List GWOp) : List (GWOp × GWRes) :=
  ops.zip (gwRun s ops).2

/-- `true` iff the trace contains the given operation finishing with the
given result. -/
def gwHas (tr : List (GWOp × GWRes)) (op : GWOp) (r : GWRes) : Bool :=
  tr.any fun p => p.1 == op && p.2 == r

/-- `true` iff every gate-passing write in the trace was refused (returned
`context.Canceled` to the dispatch goroutine). -/
def gwAllWritesRefused (tr : List (GWOp × GWRes)) : Bool :=
  tr.all fun p => p.1 != GWOp.gatePass || p.2 == GWRes.failed

/-! ## The exact cache (`internal/cache`, `container/list` implementation:
`ExactCache`, `GetByKey`, `PutByKey`, `evictLRU`)

The implementation keeps a `map[string]*list.Element` and a doubly linked
`order` list (front = most recently used, back = least recently used) in
sync under one mutex.  We model the synchronized pair as the ordered
association list `order`; map lookup is `find?` on it, `MoveToFront` is
erase-and-cons, `evictLRU` removes the last element.  `time.Time` is an
`Int` instant and `time.Now().After(e)` is `e < now` (strict). -/

/-- `cache.Entry`: a cached response with its expiration instant. -/
structure CacheEntry where
  response : ChatResponse
  expiresAt : Int
deriving DecidableEq, Repr

/-- `cache.ExactCache`: ordered entry list (front = MRU), TTL, capacity. -/
structure ExactCache where
  order : List (String × CacheEntry)
  ttl : Int
  maxEntries : Nat
deriving DecidableEq, Repr

/-- The keys currently stored, in recency order (front = MRU). -/
def ExactCache.keys (c : ExactCache) : List String :=
  c.order.map Prod.fst

/-- Membership test on the backing map. -/
def containsKey (c : ExactCache) (key : String) : Bool :=
  c.order.any fun p => p.1 == key

/-- `cache.New`: fresh cache with the given TTL and capacity. -/
def newCache (ttl : Int) (maxEntries : Nat) : ExactCache :=
  ⟨[], ttl, maxEntries⟩

/-- `ExactCache.GetByKey`: look up `key` at instant `now`.  A found entry
that is strictly past its expiry is removed (lazy expiry) and reported as
a miss; a live entry is promoted to most-recently-used (`MoveToFront`). -/
def getByKey (c : ExactCache) (key : String) (now : Int) : Option CacheEntry × ExactCache :=
  match c.order.find? (fun p => p.1 == key) with
  | none => (none, c)
  | some p =>
      if p.2.expiresAt < now then
        (none, { c with order := c.order.eraseP fun q => q.1 == key })
      else
        (some p.2, { c with order := p :: c.order.eraseP fun q => q.1 == key })

/-- `ExactCache.PutByKey`: store `resp` under `key` at instant `now` with
`expiresAt = now + ttl`.  An existing key is replaced in place and promoted;
a new key at capacity first evicts the least-recently-used entry (the back
of the order list, `evictLRU`). -/
def putByKey (c : ExactCache) (key : String) (resp : ChatResponse) (now : Int) : ExactCache :=
  let entry : CacheEntry := ⟨resp, now + c.ttl⟩
  if containsKey c key then
    { c with order := (key, entry) :: c.order.eraseP fun q => q.1 == key }
  else if c.maxEntries ≤ c.order.length then
    { c with order := (key, entry) :: c.order.dropLast }
  else
    { c with order := (key, entry) :: c.order }

/-- `ExactCache.Len`. -/
def cacheLen (c : ExactCache) : Nat :=
  c.order.length

/-- A sequence of `PutByKey` calls, in order (all at instant `now`). -/
def putAll (c : ExactCache) (items : List (String × ChatResponse)) (now : Int) : ExactCache :=
  items.foldl (fun acc it => putByKey acc it.1 it.2 now) c

/-! ### Claim C3 (corrected) -/

/-- A concrete buffered response used for closed evaluations. -/
def sampleResponse (rid : String) : ChatResponse :=
  ⟨rid, "chat.completion", 0, "gpt-4o",
    [⟨0, ⟨"assistant", "Hello!"⟩, "stop"⟩], ⟨10, 5, 15⟩⟩

/-! ## The buffered semantic-dispatch race
(`SemanticDispatchStage.Process`, `internal/pipeline/semantic_dispatch.go`)

Two goroutines send `raceResult` values into a channel of capacity 2; the
parent reads exactly two messages.  We model the nondeterministic arrival
order as the list of received messages, and the `for i := 0; i < 2; i++`
select loop plus its finalization as a fold over that list. -/

/-- A `raceResult` as sent on the channel: either the semantic path's
`(resp?, emb)` or the dispatch path's `(resp?, err?)`. -/
inductive BufRaceMsg
  | semantic (resp : Option ChatResponse) (emb : Option (List Rat))
  | dispatch (resp : Option ProxyResponse) (err : Option String)
deriving DecidableEq, Repr

/-- Loop state: the stored dispatch result and the semantic embedding. -/
structure BufLoopState where
  dispatchResult : Option (Option ProxyResponse × Option String)
  semanticEmb : Option (List Rat)
deriving DecidableEq, Repr

/-- Outcome of `Process`: a semantic hit (with the dispatch context
cancelled), a surfaced dispatch error, a dispatch result (recording whether
the asynchronous semantic store was fired and with which embedding), or the
defensive re-dispatch when no dispatch result arrived. -/
inductive BufOutcome
  | hit (resp : ProxyResponse) (dispatchCancelled : Bool)
  | errored (e : String)
  | dispatched (resp : Option ProxyResponse) (storeFired : Bool) (storedEmb : Option (List Rat))
  | fallbackRedispatch
deriving DecidableEq, Repr

/-- The `ProxyResponse` built for a semantic-cache hit in
`SemanticDispatchStage.Process`. -/
def semanticHitProxyResponse (r : ChatResponse) : ProxyResponse :=
  ⟨some r, r.usage.completionTokens, 0, "HIT", "semantic_cache"⟩

/-- The receive loop: a semantic hit returns immediately (after
`cancel()`); a semantic miss records the embedding; a dispatch message is
stored for the finalization. -/
def bufferedRaceLoop : BufLoopState → List BufRaceMsg → BufLoopState ⊕ ProxyResponse
  | st, [] => .inl st
  | st, m :: rest =>
      match m with
      | .semantic (some r) _ => .inr (semanticHitProxyResponse r)
      | .semantic none emb => bufferedRaceLoop { st with semanticEmb := emb } rest
      | .dispatch resp err =>
          bufferedRaceLoop { st with dispatchResult := some (resp, err) } rest

/-- `SemanticDispatchStage.Process` on a given arrival order of the two
race messages: loop, then finalization (error surfaced first; otherwise
the async store fires exactly when the dispatch result carries a chat
response). -/
def processBuffered (msgs : List BufRaceMsg) : BufOutcome :=
  match bufferedRaceLoop ⟨none, none⟩ msgs with
  | .inr r => .hit r true
  | .inl st =>
      match st.dispatchResult with
      | none => .fallbackRedispatch
      | some (_, some e) => .errored e
      | some (some pr, none) =>
          match pr.chatResponse with
          | some _ => .dispatched (some pr) true st.semanticEmb
          | none => .dispatched (some pr) false st.semanticEmb
      | some (none, none) => .dispatched none false st.semanticEmb

/-! ## The exact-cache key (`internal/cache`, `cacheKey` / `KeyFor`)

`KeyFor` builds a `cacheKey{Model, Messages, Temperature, TopP}` value from
the request, marshals it with `encoding/json` (struct-order fields,
`omitempty` on the two optional pointers, HTML-escaping string encoder) and
hashes the bytes with SHA-256, hex-encoded.  `float64` formatting of
`encoding/json` is abstracted by an exact rendering of the rational value;
the key-stability claim is independent of the number rendering. -/

/-- Lowercase hex digit. -/
def hexDigit (n : Nat) : Char :=
  if n < 10 then Char.ofNat (48 + n) else Char.ofNat (87 + n)

/-- One character of Go `encoding/json` string escaping (default encoder:
quotes, backslash, `\n`, `\r`, `\t`, other control bytes as `\u00XX`, and
HTML-escaped `<`, `>`, `&`). -/
def escapeChar (ch : Char) : String :=
  if ch = '"' then "\\\""
  else if ch = '\\' then "\\\\"
  else if ch = '\n' then "\\n"
  else if ch = '\r' then "\\r"
  else if ch = '\t' then "\\t"
  else if ch.toNat < 32 || ch = '<' || ch = '>' || ch = '&' then
    String.mk ['\\', 'u', '0', '0', hexDigit (ch.toNat / 16), hexDigit (ch.toNat % 16)]
  else String.mk [ch]

/-- Go JSON string literal. -/
def jsonString (s : String) : String :=
  "\"" ++ String.join (s.data.map escapeChar) ++ "\""

/-- Go JSON rendering of a `model.Message`. -/
def jsonMessage (m : Message) : String :=
  "\x7b\"role\":" ++ jsonString m.role ++ ",\"content\":" ++ jsonString m.content ++ "\x7d"

/-- Go JSON rendering of a message array. -/
def jsonMessages (ms : List Message) : String :=
  "[" ++ String.intercalate "," (ms.map jsonMessage) ++ "]"

/-- Rendering of a `float64` JSON number, abstracted as an exact rendering
of the rational value (injective on the value, like Go's shortest-float
formatting). -/
def jsonNumber (q : Rat) : String :=
  toString q.num ++ "/" ++ toString q.den

/-- The `cacheKey` struct that is marshalled and hashed. -/
structure CacheKeyStruct where
  model : String
  messages : List Message
  temperature : Option Rat
  topP : Option Rat
deriving DecidableEq, Repr

/-- `json.Marshal` of a `cacheKey` value: fields in struct order, the two
optional pointers dropped when nil (`omitempty`). -/
def marshalCacheKey (k : CacheKeyStruct) : String :=
  "\x7b\"model\":" ++ jsonString k.model ++ ",\"messages\":" ++ jsonMessages k.messages
    ++ (match k.temperature with
        | none => ""
        | some t => ",\"temperature\":" ++ jsonNumber t)
    ++ (match k.topP with
        | none => ""
        | some t => ",\"top_p\":" ++ jsonNumber t)
    ++ "\x7d"

/-- UTF-8 bytes of a string, as naturals. -/
def utf8Bytes (s : String) : List Nat :=
  s.toUTF8.toList.map fun b => b.toNat

/-- Truncation to a 32-bit word. -/
def w32 (x : Nat) : Nat := x % 4294967296

/-- 32-bit rotate right. -/
def rotr32 (n x : Nat) : Nat := w32 (x / 2 ^ n + x % 2 ^ n * 2 ^ (32 - n))

/-- Logical shift right. -/
def shr32 (n x : Nat) : Nat := x / 2 ^ n

/-- 32-bit bitwise complement (of an already truncated word). -/
def not32 (x : Nat) : Nat := 4294967295 - x

/-- The 64 SHA-256 round constants, in decimal. -/
def sha256K : List Nat :=
  [1116352408, 1899447441, 3049323471, 3921009573, 961987163,
   1508970993, 2453635748, 2870763221, 3624381080, 310598401,
   607225278, 1426881987, 1925078388, 2162078206, 2614888103,
   3248222580, 3835390401, 4022224774, 264347078, 604807628,
   770255983, 1249150122, 1555081692, 1996064986, 2554220882,
   2821834349, 2952996808, 3210313671, 3336571891, 3584528711,
   113926993, 338241895, 666307205, 773529912, 1294757372,
   1396182291, 1695183700, 1986661051, 2177026350, 2456956037,
   2730485921, 2820302411, 3259730800, 3345764771, 3516065817,
   3600352804, 4094571909, 275423344, 430227734, 506948616,
   659060556, 883997877, 958139571, 1322822218, 1537002063,
   1747873779, 1955562222, 2024104815, 2227730452, 2361852424,
   2428436474, 2756734187, 3204031479, 3329325298]

/-- The eight SHA-256 initial hash words, in decimal. -/
def sha256InitH : List Nat :=
  [1779033703, 3144134277, 1013904242, 2773480762,
   1359893119, 2600822924, 528734635, 1541459225]

/-- Big-endian 8-byte encoding. -/
def bigEndian8 (n : Nat) : List Nat :=
  [n / 2 ^ 56 % 256, n / 2 ^ 48 % 256, n / 2 ^ 40 % 256, n / 2 ^ 32 % 256,
   n / 2 ^ 24 % 256, n / 2 ^ 16 % 256, n / 2 ^ 8 % 256, n % 256]

/-- SHA-256 message padding. -/
def sha256Pad (msg : List Nat) : List Nat :=
  msg ++ [128] ++ List.replicate ((119 - msg.length % 64) % 64) 0 ++ bigEndian8 (msg.length * 8)

/-- Split into 64-byte blocks. -/
def toChunks (l : List Nat) : List (List Nat) :=
  if h : l = [] then []
  else l.take 64 :: toChunks (l.drop 64)
termination_by l.length
decreasing_by
  have hp : 0 < l.length := List.length_pos.mpr h
  simp only [List.length_drop]
  omega

/-- Big-endian 32-bit words of a block. -/
def bytesToWords : List Nat → List Nat
  | b0 :: b1 :: b2 :: b3 :: rest => (((b0 * 256 + b1) * 256 + b2) * 256 + b3) :: bytesToWords rest
  | _ => []

/-- SHA-256 message-schedule extension to 64 words. -/
def sha256Schedule (ws : List Nat) : List Nat :=
  (List.range 48).foldl
    (fun acc _ =>
      let s0 := rotr32 7 (acc.getD (acc.length - 15) 0) ^^^
        rotr32 18 (acc.getD (acc.length - 15) 0) ^^^ shr32 3 (acc.getD (acc.length - 15) 0)
      let s1 := rotr32 17 (acc.getD (acc.length - 2) 0) ^^^
        rotr32 19 (acc.getD (acc.length - 2) 0) ^^^ shr32 10 (acc.getD (acc.length - 2) 0)
      acc ++ [w32 (acc.getD (acc.length - 16) 0 + s0 + acc.getD (acc.length - 7) 0 + s1)])
    ws

/-- The eight SHA-256 working variables. -/
structure Sha256State where
  a : Nat
  b : Nat
  c : Nat
  d : Nat
  e : Nat
  f : Nat
  g : Nat
  h : Nat
deriving DecidableEq, Repr

/-- One SHA-256 compression round. -/
def sha256Round (s : Sha256State) (ki wi : Nat) : Sha256State :=
  let bigS1 := rotr32 6 s.e ^^^ rotr32 11 s.e ^^^ rotr32 25 s.e
  let ch := (s.e &&& s.f) ^^^ (not32 s.e &&& s.g)
  let t1 := w32 (s.h + bigS1 + ch + ki + wi)
  let bigS0 := rotr32 2 s.a ^^^ rotr32 13 s.a ^^^ rotr32 22 s.a
  let mj := (s.a &&& s.b) ^^^ (s.a &&& s.c) ^^^ (s.b &&& s.c)
  let t2 := w32 (bigS0 + mj)
  ⟨w32 (t1 + t2), s.a, s.b, s.c, w32 (s.d + t1), s.e, s.f, s.g⟩

/-- Process one 64-byte block. -/
def sha256Block (hs : List Nat) (chunk : List Nat) : List Nat :=
  let ws := sha256Schedule (bytesToWords chunk)
  let st0 : Sha256State :=
    ⟨hs.getD 0 0, hs.getD 1 0, hs.getD 2 0, hs.getD 3 0,
     hs.getD 4 0, hs.getD 5 0, hs.getD 6 0, hs.getD 7 0⟩
  let fin := (sha256K.zip ws).foldl (fun s p => sha256Round s p.1 p.2) st0
  [w32 (hs.getD 0 0 + fin.a), w32 (hs.getD 1 0 + fin.b), w32 (hs.getD 2 0 + fin.c),
   w32 (hs.getD 3 0 + fin.d), w32 (hs.getD 4 0 + fin.e), w32 (hs.getD 5 0 + fin.f),
   w32 (hs.getD 6 0 + fin.g), w32 (hs.getD 7 0 + fin.h)]

/-- SHA-256 digest (32 bytes) of a byte sequence. -/
def sha256 (msg : List Nat) : List Nat :=
  let hs := (toChunks (sha256Pad msg)).foldl sha256Block sha256InitH
  (hs.map fun w => [w / 2 ^ 24 % 256, w / 2 ^ 16 % 256, w / 2 ^ 8 % 256, w % 256]).flatten

/-- Lowercase hex of one byte. -/
def hexOfByte (b : Nat) : String :=
  String.mk [hexDigit (b / 16), hexDigit (b % 16)]

/-- Lowercase hex of a byte sequence (`hex.EncodeToString`). -/
def hexOfBytes (bs : List Nat) : String :=
  String.join (bs.map hexOfByte)

/-- `cache.KeyFor`: SHA-256 hex of the canonical JSON of
`(model, messages, temperature, top_p)`. -/
def keyFor (req : ChatRequest) : String :=
  hexOfBytes (sha256 (utf8Bytes
    (marshalCacheKey ⟨req.model, req.messages, req.temperature, req.topP⟩)))

/-! ## Temperature gating (`CacheStage.shouldSkip`,
`SemanticDispatchStage.shouldSkip`) -/

/-- `CacheStage.shouldSkip`: skip iff the stage was built with
`skipTempAboveZero` (the handler wires it with `true`) and the request's
temperature is explicitly set and strictly positive. -/
def cacheShouldSkip (skipTempAboveZero : Bool) (req : ChatRequest) : Bool :=
  skipTempAboveZero &&
    match req.temperature with
    | none => false
    | some t => decide (0 < t)

/-- `SemanticDispatchStage.shouldSkip`: bypass the semantic race iff the
temperature is explicitly set and strictly positive. -/
def semanticShouldSkip (req : ChatRequest) : Bool :=
  match req.temperature with
  | none => false
  | some t => decide (0 < t)

/-- The `ProxyResponse` built for an exact-cache hit in `CacheStage`. -/
def cacheHitProxyResponse (e : CacheEntry) : ProxyResponse :=
  ⟨some e.response, e.response.usage.completionTokens, 0, "HIT", "cache"⟩

/-- `CacheStage.Process`: gate, then look up the exact cache.  The final
boolean records whether the cache was consulted (`Get` called). -/
def cacheStageProcess (skipTempAboveZero : Bool) (c : ExactCache) (req : ChatRequest)
    (now : Int) : Option ProxyResponse × ExactCache × Bool :=
  if cacheShouldSkip skipTempAboveZero req then (none, c, false)
  else
    let g := getByKey c (keyFor req) now
    match g.1 with
    | none => (none, g.2, true)
    | some e => (some (cacheHitProxyResponse e), g.2, true)

/-- Which path `SemanticDispatchStage.Process`/`ProcessStream` takes:
direct delegation to the bare dispatch stage, or the semantic race. -/
inductive SemanticPath
  | direct
  | race
deriving DecidableEq, Repr

/-- The head of `SemanticDispatchStage.Process` and `ProcessStream`. -/
def semanticDispatchPath (req : ChatRequest) : SemanticPath :=
  if semanticShouldSkip req then .direct else .race

/-- A concrete request used for closed evaluations. -/
def sampleRequest (temp : Option Rat) : ChatRequest :=
  ⟨"gpt-4o", [⟨"user", "Hello"⟩], temp, none, none, false, none, ""⟩

/-! ## SSE replay (`internal/sse/replay.go`, `WriteResponseAsSSE`)

The replayer writes, through `sw.WriteEvent`, a role chunk, one content
chunk per choice, a terminal chunk carrying the stored usage, and then
calls `sw.Done()`.  We model the writer as a pure accumulator: the emitted
chunk list plus the done flag (`time.Now()` instants are the parameter
`now`; JSON marshalling of each chunk is injective and dropped). -/

/-- The per-choice emission loop of `WriteResponseAsSSE`. -/
def emitContentChunks (resp : ChatResponse) (now : Int) : List Choice → List ChatStreamChunk
  | [] => []
  | ch :: rest =>
      ⟨resp.id, "chat.completion.chunk", now, resp.model,
        [⟨ch.index, ⟨"", ch.message.content⟩, ""⟩], none⟩ :: emitContentChunks resp now rest

/-- `WriteResponseAsSSE`: the emitted chunk sequence and the done flag. -/
def writeResponseAsSSE (resp : ChatResponse) (now : Int) : List ChatStreamChunk × Bool :=
  (⟨resp.id, "chat.completion.chunk", now, resp.model, [⟨0, ⟨"assistant", ""⟩, ""⟩], none⟩ ::
      (emitContentChunks resp now resp.choices ++
        [⟨resp.id, "chat.completion.chunk", now, resp.model, [⟨0, ⟨"", ""⟩, "stop"⟩],
          some resp.usage⟩]),
    true)

/-- Concatenated `delta.content` of one chunk's choices. -/
def chunkDeltaContent : List StreamChoice → String
  | [] => ""
  | sc :: rest => sc.delta.content ++ chunkDeltaContent rest

/-- Concatenated `delta.content` across a chunk stream. -/
def streamContent : List ChatStreamChunk → String
  | [] => ""
  | c :: rest => chunkDeltaContent c.choices ++ streamContent rest

/-- Concatenated `choices[*].message.content` of a buffered response. -/
def choicesContent : List Choice → String
  | [] => ""
  | ch :: rest => ch.message.content ++ choicesContent rest

/-! ## The semantic cache lookup (`internal/cache/semantic.go`,
`SemanticCache.Lookup`)

`Lookup` embeds the canonical message text and searches Qdrant; every
error path falls through to a miss with a `nil` error.  The two HTTP
collaborators are modelled by their outcomes. -/

/-- `embedding.TextFromMessages`: `role: content` lines joined by
newlines. -/
def textFromMessages (ms : List Message) : String :=
  String.intercalate "\n" (ms.map fun m => m.role ++ ": " ++ m.content)

/-- `qdrant.CachedPayload`. -/
structure CachedPayload where
  response : Option ChatResponse
  modelName : String
  createdAt : Int
deriving DecidableEq, Repr

/-- One Qdrant search result point. -/
structure ScoredPoint where
  id : String
  score : Rat
  payload : Option CachedPayload
deriving DecidableEq, Repr

/-- Outcome of `embedder.Embed`. -/
inductive EmbedResult
  | success (emb : List Rat)
  | failure
deriving DecidableEq, Repr

/-- Outcome of `qdrant.Search`. -/
inductive SearchResult
  | success (results : List ScoredPoint)
  | failure
deriving DecidableEq, Repr

/-- `SemanticCache.Lookup`: returns
`(response?, embedding?, text, error?)`. -/
def semanticLookup (req : ChatRequest) (embedRes : EmbedResult) (searchRes : SearchResult) :
    Option ChatResponse × Option (List Rat) × String × Option String :=
  let text := textFromMessages req.messages
  match embedRes with
  | .failure => (none, none, "", none)
  | .success emb =>
      match searchRes with
      | .failure => (none, some emb, text, none)
      | .success results =>
          match results with
          | [] => (none, some emb, text, none)
          | r :: _ =>
              match r.payload with
              | none => (none, some emb, text, none)
              | some pl =>
                  match pl.response with
                  | none => (none, some emb, text, none)
                  | some resp => (some resp, some emb, text, none)

/-! ## Provider adapters (`internal/provider/openai_compat.go`)

The Anthropic adapter parses one `anthropicResponse` (buffered) or a
stream of typed SSE events; the Google adapter parses `geminiResponse`
payloads.  We model the translation layers on already-decoded upstream
values; HTTP transport and JSON decoding are outside the claims. -/

/-- `anthropicUsage`. -/
structure AnthUsage where
  inputTokens : Int
  outputTokens : Int
deriving DecidableEq, Repr

/-- One `anthropicContent` block (`Type`, `Text`). -/
structure AnthContent where
  typ : String
  text : String
deriving DecidableEq, Repr

/-- A decoded `anthropicResponse`. -/
structure AnthResponse where
  id : String
  role : String
  content : List AnthContent
  model : String
  stopReason : String
  usage : AnthUsage
deriving DecidableEq, Repr

/-- The content-block concatenation loop of `Anthropic.Chat` (only blocks
of type `"text"` contribute). -/
def concatTextBlocks : List AnthContent → String
  | [] => ""
  | c :: rest => (if c.typ = "text" then c.text else "") ++ concatTextBlocks rest

/-- `anthropicStopReason`. -/
def anthropicStopReason (r : String) : String :=
  if r = "end_turn" then "stop"
  else if r = "max_tokens" then "length"
  else if r = "stop_sequence" then "stop"
  else r

/-- The canonical response built by `Anthropic.Chat` from a decoded
upstream response (`now` is the `time.Now().Unix()` instant):
`totalTokens := InputTokens + OutputTokens`. -/
def anthropicChat (ar : AnthResponse) (now : Int) : ChatResponse :=
  ⟨ar.id, "chat.completion", now, ar.model,
    [⟨0, ⟨"assistant", concatTextBlocks ar.content⟩, anthropicStopReason ar.stopReason⟩],
    ⟨ar.usage.inputTokens, ar.usage.outputTokens,
      ar.usage.inputTokens + ar.usage.outputTokens⟩⟩

/-- The typed Anthropic SSE events handled by `Anthropic.ChatStream`
(`content_block_start`, `content_block_stop` and `ping` fall under
`otherEvent`). -/
inductive AnthEvent
  | messageStart (id modelName : String) (inputTokens : Int)
  | contentBlockDelta (text : String)
  | messageDelta (stopReason : String) (outputTokens : Int)
  | messageStop
  | otherEvent
deriving DecidableEq, Repr

/-- Mutable state of the `Anthropic.ChatStream` read loop. -/
structure AnthStreamState where
  usage : Usage
  msgId : String
  modelName : String
deriving DecidableEq, Repr

/-- Initial stream state (Go zero values). -/
def anthInitState : AnthStreamState := ⟨⟨0, 0, 0⟩, "", ""⟩

/-- One event of the `Anthropic.ChatStream` loop: the next state, the
chunks written, and whether `Done()` was called.  `message_start` records
id/model and `usage.PromptTokens`; `message_delta` records
`usage.CompletionTokens` and sets
`usage.TotalTokens = PromptTokens + CompletionTokens`. -/
def anthStep (now : Int) (st : AnthStreamState) (e : AnthEvent) :
    AnthStreamState × List ChatStreamChunk × Bool :=
  match e with
  | .messageStart mid mname itok =>
      (⟨⟨itok, st.usage.completionTokens, st.usage.totalTokens⟩, mid, mname⟩,
        [⟨mid, "chat.completion.chunk", now, mname, [⟨0, ⟨"assistant", ""⟩, ""⟩], none⟩],
        false)
  | .contentBlockDelta text =>
      (st, [⟨st.msgId, "chat.completion.chunk", now, st.modelName,
        [⟨0, ⟨"", text⟩, ""⟩], none⟩], false)
  | .messageDelta sr otok =>
      (⟨⟨st.usage.promptTokens, otok, st.usage.promptTokens + otok⟩, st.msgId, st.modelName⟩,
        [⟨st.msgId, "chat.completion.chunk", now, st.modelName,
          [⟨0, ⟨"", ""⟩, anthropicStopReason sr⟩], none⟩], false)
  | .messageStop => (st, [], true)
  | .otherEvent => (st, [], false)

/-- The state after folding the stream events. -/
def anthRun (now : Int) : AnthStreamState → List AnthEvent → AnthStreamState
  | st, [] => st
  | st, e :: es => anthRun now (anthStep now st e).1 es

/-- `true` on `message_start` events. -/
def isMessageStart : AnthEvent → Bool
  | .messageStart _ _ _ => true
  | _ => false

/-- `geminiPart`. -/
structure GeminiPart where
  text : String
deriving DecidableEq, Repr

/-- `geminiContent`. -/
structure GeminiContent where
  role : String
  parts : List GeminiPart
deriving DecidableEq, Repr

/-- `geminiCandidate`. -/
structure GeminiCandidate where
  content : GeminiContent
  finishReason : String
deriving DecidableEq, Repr

/-- `geminiUsage` (`usageMetadata`). -/
structure GeminiUsage where
  promptTokenCount : Int
  candidatesTokenCount : Int
  totalTokenCount : Int
deriving DecidableEq, Repr

/-- A decoded `geminiResponse`. -/
structure GeminiResponse where
  candidates : List GeminiCandidate
  usageMetadata : Option GeminiUsage
deriving DecidableEq, Repr

/-- `geminiFinishReason`. -/
def geminiFinishReason (r : String) : String :=
  if r = "STOP" then "stop"
  else if r = "MAX_TOKENS" then "length"
  else if r = "SAFETY" then "content_filter"
  else r

/-- The canonical response built by `Google.Chat` from a decoded upstream
payload: content comes from the first part of the first candidate only,
and the usage triple is copied verbatim from `usageMetadata`. -/
def googleChat (gr : GeminiResponse) (genId : String) (now : Int) (reqModel : String) :
    ChatResponse :=
  let content :=
    match gr.candidates with
    | [] => ""
    | cand :: _ =>
        match cand.content.parts with
        | [] => ""
        | p :: _ => p.text
  let finishReason :=
    match gr.candidates with
    | [] => ""
    | cand :: _ => geminiFinishReason cand.finishReason
  let usage : Usage :=
    match gr.usageMetadata with
    | none => ⟨0, 0, 0⟩
    | some gu => ⟨gu.promptTokenCount, gu.candidatesTokenCount, gu.totalTokenCount⟩
  ⟨genId, "chat.completion", now, reqModel,
    [⟨0, ⟨"assistant", content⟩, finishReason⟩], usage⟩

/-- The content chunk `Google.ChatStream` emits for one streamed payload:
again only the first part of the first candidate; the finish reason is
mapped only when non-empty. -/
def googleStreamChunk (gr : GeminiResponse) (genId : String) (created : Int)
    (reqModel : String) : ChatStreamChunk :=
  let text :=
    match gr.candidates with
    | [] => ""
    | cand :: _ =>
        match cand.content.parts with
        | [] => ""
        | p :: _ => p.text
  let finishReason :=
    match gr.candidates with
    | [] => ""
    | cand :: _ => if cand.finishReason = "" then "" else geminiFinishReason cand.finishReason
  ⟨genId, "chat.completion.chunk", created, reqModel,
    [⟨0, ⟨"", text⟩, finishReason⟩], none⟩

/-! ## Claim theorems -/

theorem gwRun_cons (s : GWState) (op : GWOp) (ops : List GWOp) :
    gwRun s (op :: ops) =
      ((gwRun (gwStep s op).1 ops).1, (gwStep s op).2 :: (gwRun (gwStep s op).1 ops).2) := rfl

theorem gwTrace_cons (s : GWState) (op : GWOp) (ops : List GWOp) :
    gwTrace s (op :: ops) = (op, (gwStep s op).2) :: gwTrace (gwStep s op).1 ops := by
  simp [gwTrace, gwRun_cons, List.zip]

/-- `claimed` is monotone across one critical section. -/
theorem gwStep_claimed_mono (s : GWState) (op : GWOp) (h : s.claimed = true) :
    (gwStep s op).1.claimed = true := by
  cases op <;> simp only [gwStep] <;> repeat' split
  all_goals simp [h]

/-- `writing` is monotone across one critical section. -/
theorem gwStep_writing_mono (s : GWState) (op : GWOp) (h : s.writing = true) :
    (gwStep s op).1.writing = true := by
  cases op <;> simp only [gwStep] <;> repeat' split
  all_goals simp [h]

/-- `gateOpen` is monotone across one critical section. -/
theorem gwStep_gateOpen_mono (s : GWState) (op : GWOp) (h : s.gateOpen = true) :
    (gwStep s op).1.gateOpen = true := by
  cases op <;> simp only [gwStep] <;> repeat' split
  all_goals simp [h]

/-- `claimed` is monotone along any run. -/
theorem gwRun_claimed_mono (ops : List GWOp) :
    ∀ s : GWState, s.claimed = true → (gwRun s ops).1.claimed = true := by
  induction ops with
  | nil => intro s h; simpa [gwRun] using h
  | cons op ops ih =>
      intro s h
      rw [gwRun_cons]
      exact ih _ (gwStep_claimed_mono s op h)

/-- `writing` is monotone along any run. -/
theorem gwRun_writing_mono (ops : List GWOp) :
    ∀ s : GWState, s.writing = true → (gwRun s ops).1.writing = true := by
  induction ops with
  | nil => intro s h; simpa [gwRun] using h
  | cons op ops ih =>
      intro s h
      rw [gwRun_cons]
      exact ih _ (gwStep_writing_mono s op h)

/-- A successful `claim` never coexists with a write in flight: each step
preserves `¬(claimed ∧ writing)`. -/
theorem gwStep_excl (s : GWState) (op : GWOp)
    (h : ¬(s.claimed = true ∧ s.writing = true)) :
    ¬((gwStep s op).1.claimed = true ∧ (gwStep s op).1.writing = true) := by
  cases op <;> simp only [gwStep]
  · split
    · exact h
    · rename_i hw
      simp only [Bool.not_eq_true] at hw
      simp [hw]
  · exact h
  · split
    · exact h
    · split
      · exact h
      · rename_i _ hc
        simp only [Bool.not_eq_true] at hc
        simp [hc]

theorem gwRun_excl (ops : List GWOp) :
    ∀ s : GWState, ¬(s.claimed = true ∧ s.writing = true) →
      ¬((gwRun s ops).1.claimed = true ∧ (gwRun s ops).1.writing = true) := by
  induction ops with
  | nil => intro s h; simpa [gwRun] using h
  | cons op ops ih =>
      intro s h
      rw [gwRun_cons]
      exact ih _ (gwStep_excl s op h)

/-- If some `claim` in the trace succeeded, the final state is claimed. -/
theorem gwTrace_claim_ok_claimed (ops : List GWOp) :
    ∀ s : GWState, gwHas (gwTrace s ops) GWOp.claim GWRes.ok = true →
      (gwRun s ops).1.claimed = true := by
  induction ops with
  | nil => intro s h; simp [gwTrace, gwRun, gwHas] at h
  | cons op ops ih =>
      intro s h
      rw [gwTrace_cons] at h
      rw [gwRun_cons]
      simp only [gwHas, List.any_cons, Bool.or_eq_true, Bool.and_eq_true, beq_iff_eq] at h
      rcases h with ⟨hop, hres⟩ | h
      · subst hop
        have hclaimed : (gwStep s GWOp.claim).1.claimed = true := by
          by_cases hw : s.writing = true
          · simp [gwStep, hw] at hres
          · simp [gwStep, hw]
        exact gwRun_claimed_mono ops _ hclaimed
      · exact ih _ h

/-- If some gate-passing write in the trace succeeded, the final state has
`writing` set. -/
theorem gwTrace_gatePass_ok_writing (ops : List GWOp) :
    ∀ s : GWState, gwHas (gwTrace s ops) GWOp.gatePass GWRes.ok = true →
      (gwRun s ops).1.writing = true := by
  induction ops with
  | nil => intro s h; simp [gwTrace, gwRun, gwHas] at h
  | cons op ops ih =>
      intro s h
      rw [gwTrace_cons] at h
      rw [gwRun_cons]
      simp only [gwHas, List.any_cons, Bool.or_eq_true, Bool.and_eq_true, beq_iff_eq] at h
      rcases h with ⟨hop, hres⟩ | h
      · subst hop
        have hwriting : (gwStep s GWOp.gatePass).1.writing = true := by
          by_cases hgo : s.gateOpen = false
          · simp [gwStep, hgo] at hres
          · by_cases hc : s.claimed = true
            · simp [gwStep, hgo, hc] at hres
            · simp [gwStep, hgo, hc]
        exact gwRun_writing_mono ops _ hwriting
      · exact ih _ h

/-- Once the gate is open and the stream is claimed, every later
gate-passing write is refused with `context.Canceled`. -/
theorem gwTrace_claimed_writes_refused (ops : List GWOp) :
    ∀ s : GWState, s.claimed = true → s.gateOpen = true →
      gwAllWritesRefused (gwTrace s ops) = true := by
  induction ops with
  | nil => intro s _ _; simp [gwTrace, gwRun, gwAllWritesRefused]
  | cons op ops ih =>
      intro s hc hg
      rw [gwTrace_cons]
      simp only [gwAllWritesRefused, List.all_cons, Bool.and_eq_true]
      constructor
      · cases op <;> simp [gwStep, hc, hg]
      · exact ih _ (gwStep_claimed_mono s op hc) (gwStep_gateOpen_mono s op hg)

/-- Claim C1 core theorem, three parts over any serialized history of the
gated writer, starting from the state `gatedWriter` is constructed in:

1. In no history do a `claim()` and a gate-passing dispatch write both
   succeed — the client never receives a mix of replay chunks (written by
   the semantic winner after a successful `claim()`) and provider chunks
   (written by dispatch only when its gate pass succeeds).
2. If, after some prefix of operations, `claim()` succeeds (the semantic
   hit wins), then no dispatch write succeeded during that prefix and
   every dispatch write afterwards returns `context.Canceled`.
3. If dispatch has already set `writing`, a `claim()` fails, so only the
   provider's chunks are written. -/
theorem claim1_gated_writer_single_producer :
    (∀ ops : List GWOp,
        ¬(gwHas (gwTrace gwInit ops) GWOp.claim GWRes.ok = true ∧
          gwHas (gwTrace gwInit ops) GWOp.gatePass GWRes.ok = true))
    ∧ (∀ pre post : List GWOp,
        (gwStep (gwRun gwInit pre).1 GWOp.claim).2 = GWRes.ok →
          gwHas (gwTrace gwInit pre) GWOp.gatePass GWRes.ok = false ∧
          gwAllWritesRefused
            (gwTrace (gwStep (gwRun gwInit pre).1 GWOp.claim).1 post) = true)
    ∧ (∀ pre : List GWOp,
        (gwRun gwInit pre).1.writing = true →
          (gwStep (gwRun gwInit pre).1 GWOp.claim).2 = GWRes.failed) := by
  refine ⟨?_, ?_, ?_⟩
  · intro ops ⟨hclaim, hpass⟩
    have h1 := gwTrace_claim_ok_claimed ops gwInit hclaim
    have h2 := gwTrace_gatePass_ok_writing ops gwInit hpass
    exact gwRun_excl ops gwInit (by simp [gwInit]) ⟨h1, h2⟩
  · intro pre post hok
    have hw : (gwRun gwInit pre).1.writing = false := by
      by_contra h
      simp only [Bool.not_eq_false] at h
      simp [gwStep, h] at hok
    constructor
    · by_contra h
      simp only [Bool.not_eq_false] at h
      exact absurd (gwTrace_gatePass_ok_writing pre gwInit h) (by simp [hw])
    · have hc : (gwStep (gwRun gwInit pre).1 GWOp.claim).1.claimed = true := by
        simp [gwStep, hw]
      have hg : (gwStep (gwRun gwInit pre).1 GWOp.claim).1.gateOpen = true := by
        simp [gwStep, hw]
      exact gwTrace_claimed_writes_refused post _ hc hg
  · intro pre hw
    simp [gwStep, hw]

/-- Witness for C1: the concrete history `release; gatePass` (dispatch has
already written), after which `claim()` fails. -/
theorem claim1_witness :
    (gwStep (gwRun gwInit [GWOp.release, GWOp.gatePass]).1 GWOp.claim).2 = GWRes.failed :=
  claim1_gated_writer_single_producer.2.2 [GWOp.release, GWOp.gatePass] (by decide)

theorem getByKey_none (c : ExactCache) (key : String) (now : Int)
    (hf : c.order.find? (fun p => p.1 == key) = none) :
    getByKey c key now = (none, c) := by
  unfold getByKey
  rw [hf]

theorem getByKey_some (c : ExactCache) (key : String) (now : Int) (p : String × CacheEntry)
    (hf : c.order.find? (fun p => p.1 == key) = some p) :
    getByKey c key now =
      if p.2.expiresAt < now then
        (none, { c with order := c.order.eraseP fun q => q.1 == key })
      else
        (some p.2, { c with order := p :: c.order.eraseP fun q => q.1 == key }) := by
  unfold getByKey
  rw [hf]

theorem containsKey_iff (c : ExactCache) (key : String) :
    containsKey c key = true ↔ key ∈ c.keys := by
  simp only [containsKey, List.any_eq_true, ExactCache.keys, List.mem_map, beq_iff_eq]

theorem putAll_append (c : ExactCache) (l₁ l₂ : List (String × ChatResponse)) (now : Int) :
    putAll c (l₁ ++ l₂) now = putAll (putAll c l₁ now) l₂ now := by
  simp [putAll, List.foldl_append]

theorem putByKey_fresh_keys (c : ExactCache) (key : String) (resp : ChatResponse) (now : Int)
    (h : containsKey c key = false) :
    (putByKey c key resp now).keys =
      if c.maxEntries ≤ c.order.length then key :: c.keys.dropLast else key :: c.keys := by
  simp only [putByKey, h, Bool.false_eq_true, if_false]
  split
  · simp [ExactCache.keys, List.map_dropLast]
  · simp [ExactCache.keys]

theorem putByKey_ttl (c : ExactCache) (key : String) (resp : ChatResponse) (now : Int) :
    (putByKey c key resp now).ttl = c.ttl := by
  simp only [putByKey]
  split <;> [skip; split] <;> rfl

theorem putByKey_maxEntries (c : ExactCache) (key : String) (resp : ChatResponse) (now : Int) :
    (putByKey c key resp now).maxEntries = c.maxEntries := by
  simp only [putByKey]
  split <;> [skip; split] <;> rfl

theorem putAll_ttl (items : List (String × ChatResponse)) (now : Int) :
    ∀ c : ExactCache, (putAll c items now).ttl = c.ttl := by
  induction items with
  | nil => intro c; rfl
  | cons it items ih =>
      intro c
      show (putAll (putByKey c it.1 it.2 now) items now).ttl = c.ttl
      rw [ih, putByKey_ttl]

theorem putAll_maxEntries (items : List (String × ChatResponse)) (now : Int) :
    ∀ c : ExactCache, (putAll c items now).maxEntries = c.maxEntries := by
  induction items with
  | nil => intro c; rfl
  | cons it items ih =>
      intro c
      show (putAll (putByKey c it.1 it.2 now) items now).maxEntries = c.maxEntries
      rw [ih, putByKey_maxEntries]

/-- Keys after inserting a sequence of distinct fresh keys into an empty
cache of capacity `N ≥ 1`: the `N` most recent, most-recent first. -/
theorem putAll_keys (ttl now : Int) (N : Nat) (hN : 1 ≤ N) :
    ∀ items : List (String × ChatResponse), (items.map Prod.fst).Nodup →
      (putAll (newCache ttl N) items now).keys = ((items.map Prod.fst).reverse).take N := by
  intro items
  induction items using List.reverseRecOn with
  | nil => intro _; simp [putAll, newCache, ExactCache.keys]
  | append_singleton items it ih =>
      intro hnd
      have hnd' : (items.map Prod.fst).Nodup := by
        simp only [List.map_append, List.map_cons, List.map_nil, List.nodup_append] at hnd
        exact hnd.1
      have hnotmem : it.1 ∉ items.map Prod.fst := by
        simp only [List.map_append, List.map_cons, List.map_nil, List.nodup_append] at hnd
        intro hmem
        exact hnd.2.2 hmem (by simp)
      have hkeys := ih hnd'
      have hfresh : containsKey (putAll (newCache ttl N) items now) it.1 = false := by
        rw [Bool.eq_false_iff]
        intro hcon
        have := (containsKey_iff _ _).mp hcon
        rw [hkeys] at this
        exact hnotmem (by
          have := List.mem_of_mem_take this
          simpa using this)
      rw [putAll_append]
      show (putByKey (putAll (newCache ttl N) items now) it.1 it.2 now).keys = _
      rw [putByKey_fresh_keys _ _ _ _ hfresh]
      have hlen : (putAll (newCache ttl N) items now).order.length =
          min N items.length := by
        have h0 : (putAll (newCache ttl N) items now).keys.length =
            (((items.map Prod.fst).reverse).take N).length := by rw [hkeys]
        simp only [ExactCache.keys, List.length_map, List.length_take,
          List.length_reverse] at h0
        omega
      rw [putAll_maxEntries]
      show (if N ≤ _ then _ else _) = _
      rw [hlen]
      simp only [List.map_append, List.map_cons, List.map_nil, List.reverse_append,
        List.reverse_cons, List.reverse_nil, List.nil_append, List.singleton_append]
      by_cases hc : N ≤ items.length
      · rw [if_pos (by omega)]
        have htk : N - 1 + 1 = N := by omega
        rw [← htk, List.take_succ_cons, htk]
        congr 1
        rw [hkeys, List.dropLast_eq_take, List.length_take, List.take_take,
          List.length_reverse, List.length_map]
        congr 1
        omega
      · rw [if_neg (by omega)]
        have htk : N - 1 + 1 = N := by omega
        rw [← htk, List.take_succ_cons, htk]
        congr 1
        rw [hkeys]
        rw [List.take_of_length_le (by simp only [List.length_reverse, List.length_map]; omega),
          List.take_of_length_le (by simp only [List.length_reverse, List.length_map]; omega)]

/-- Erasing the entry found for `key` leaves no entry with that key, when
the stored keys are distinct (the map/list invariant of the cache). -/
theorem eraseP_key_gone (k : String) :
    ∀ l : List (String × CacheEntry), (l.map Prod.fst).Nodup →
      ((l.eraseP fun q => q.1 == k).any fun q => q.1 == k) = false := by
  intro l
  induction l with
  | nil => intro _; rfl
  | cons p t ih =>
      intro hnd
      have hnd' : (t.map Prod.fst).Nodup := by
        simp only [List.map_cons, List.nodup_cons] at hnd
        exact hnd.2
      by_cases hp : p.1 = k
      · rw [List.eraseP_cons_of_pos (by simp [hp])]
        rw [Bool.eq_false_iff]
        intro hany
        obtain ⟨q, hq, hqk⟩ := List.any_eq_true.mp hany
        have hqk' : q.1 = k := by simpa using hqk
        simp only [List.map_cons, List.nodup_cons] at hnd
        exact hnd.1 (hp ▸ hqk' ▸ List.mem_map.mpr ⟨q, hq, rfl⟩)
      · rw [List.eraseP_cons_of_neg (by simp [hp])]
        simp only [List.any_cons, Bool.or_eq_false_iff]
        exact ⟨by simp [hp], ih hnd'⟩

/-- `PutByKey` always leaves the fresh entry at the front, with
`expiresAt = now + ttl`, and no other entry under the same key provided the
stored keys were distinct. -/
theorem putByKey_shape (c : ExactCache) (key : String) (resp : ChatResponse) (now : Int)
    (hnd : c.keys.Nodup) :
    ∃ tail : List (String × CacheEntry),
      (putByKey c key resp now).order = (key, ⟨resp, now + c.ttl⟩) :: tail ∧
      (tail.any fun q => q.1 == key) = false := by
  by_cases hck : containsKey c key = true
  · exact ⟨c.order.eraseP fun q => q.1 == key, by simp [putByKey, hck],
      eraseP_key_gone key c.order hnd⟩
  · rw [Bool.not_eq_true] at hck
    have hnone : (c.order.any fun q => q.1 == key) = false := hck
    by_cases hcap : c.maxEntries ≤ c.order.length
    · refine ⟨c.order.dropLast, by simp [putByKey, hck, hcap], ?_⟩
      rw [Bool.eq_false_iff]
      intro hany
      obtain ⟨q, hq, hqk⟩ := List.any_eq_true.mp hany
      rw [Bool.eq_false_iff] at hnone
      exact hnone (List.any_eq_true.mpr ⟨q, List.mem_of_mem_dropLast hq, hqk⟩)
    · exact ⟨c.order, by simp [putByKey, hck, hcap], hnone⟩

/-- If the order list has a head `p` and a nonempty tail, any `PutByKey`
(under any key) keeps an entry with `p`'s key present: the eviction victim,
if any, is taken from the back. -/
theorem putByKey_keeps_head (c : ExactCache) (p : String × CacheEntry)
    (t : List (String × CacheEntry)) (horder : c.order = p :: t) (ht : t ≠ [])
    (k₂ : String) (r₂ : ChatResponse) (n : Int) :
    containsKey (putByKey c k₂ r₂ n) p.1 = true := by
  simp only [putByKey]
  by_cases hck : containsKey c k₂ = true
  · rw [if_pos hck]
    simp only [containsKey, List.any_cons, Bool.or_eq_true]
    by_cases hpk : p.1 = k₂
    · exact Or.inl (by simp [hpk])
    · right
      rw [horder, List.eraseP_cons_of_neg (by simp [hpk])]
      exact List.any_eq_true.mpr ⟨p, by simp, by simp⟩
  · rw [if_neg hck]
    by_cases hcap : c.maxEntries ≤ c.order.length
    · rw [if_pos hcap]
      simp only [containsKey, List.any_cons, Bool.or_eq_true]
      right
      rw [horder, List.dropLast_cons_of_ne_nil ht]
      exact List.any_eq_true.mpr ⟨p, by simp, by simp⟩
    · rw [if_neg hcap]
      simp only [containsKey, List.any_cons, Bool.or_eq_true]
      right
      rw [horder]
      exact List.any_eq_true.mpr ⟨p, by simp, by simp⟩

/-- Counterexample to C3 as stated: with capacity `N = 1`, reading the
(sole) present key immediately before an insert at capacity does **not**
prevent that key from being the eviction victim — the read key is the
least-recently-used entry itself and is evicted.  Here `"a"` is read (a
hit) and is nevertheless absent after the insert of `"b"`. -/
theorem claim3_counterexample :
    (getByKey (putByKey (newCache 100 1) "a" (sampleResponse "r1") 0) "a" 0).1.isSome = true ∧
    containsKey
      (putByKey ((getByKey (putByKey (newCache 100 1) "a" (sampleResponse "r1") 0) "a" 0).2)
        "b" (sampleResponse "r2") 0) "a" = false := by
  decide

/-- Claim C3, amended for the `N = 1` edge case: the exact cache keeps
strict LRU order.  (1) A `Get` hit promotes the entry to most-recently-used
(front of the order list); (2) a `Put` to an existing key replaces it and
promotes it; (3) a `Put` of a new key at capacity evicts exactly the
least-recently-used entry (the back of the order list), not merely some
entry; (4) with capacity `N ≥ 1`, after `N + 1` inserts under distinct keys
the first-inserted key is absent; (5) when the cache holds **at least two
entries**, reading a present key immediately before an insert of a fresh
key at capacity prevents the read key from being the eviction victim (with
a single entry the read key is necessarily evicted, see the
counterexample). -/
theorem claim3_strict_lru_amended :
    (∀ (c : ExactCache) (k : String) (now : Int) (e : CacheEntry),
        (getByKey c k now).1 = some e → (getByKey c k now).2.order.head? = some (k, e))
    ∧ (∀ (c : ExactCache) (k : String) (r : ChatResponse) (now : Int),
        containsKey c k = true →
          (putByKey c k r now).order.head? = some (k, ⟨r, now + c.ttl⟩))
    ∧ (∀ (c : ExactCache) (k : String) (r : ChatResponse) (now : Int),
        containsKey c k = false → c.maxEntries ≤ c.order.length →
          (putByKey c k r now).order = (k, ⟨r, now + c.ttl⟩) :: c.order.dropLast)
    ∧ (∀ (ttl now : Int) (N : Nat) (k₀ : String) (r₀ : ChatResponse)
          (rest : List (String × ChatResponse)),
        1 ≤ N → (((k₀, r₀) :: rest).map Prod.fst).Nodup → rest.length = N →
          containsKey (putAll (newCache ttl N) ((k₀, r₀) :: rest) now) k₀ = false)
    ∧ (∀ (c : ExactCache) (k : String) (now : Int) (e : CacheEntry)
          (k₂ : String) (r₂ : ChatResponse) (now₂ : Int),
        (getByKey c k now).1 = some e → 2 ≤ c.order.length →
          containsKey (putByKey (getByKey c k now).2 k₂ r₂ now₂) k = true) := by
  refine ⟨?_, ?_, ?_, ?_, ?_⟩
  · intro c k now e h
    cases hf : c.order.find? fun p => p.1 == k with
    | none => rw [getByKey_none c k now hf] at h; exact absurd h (by simp)
    | some p =>
        rw [getByKey_some c k now p hf] at h ⊢
        have hk : p.1 = k := by simpa using List.find?_some hf
        by_cases hexp : p.2.expiresAt < now
        · rw [if_pos hexp] at h; exact absurd h (by simp)
        · rw [if_neg hexp] at h ⊢
          simp only [Option.some.injEq] at h
          simp [← hk, ← h]
  · intro c k r now h
    simp [putByKey, h]
  · intro c k r now h hcap
    simp [putByKey, h, hcap]
  · intro ttl now N k₀ r₀ rest hN hnd hlen
    rw [Bool.eq_false_iff]
    intro hcon
    have hmem := (containsKey_iff _ _).mp hcon
    rw [putAll_keys ttl now N hN _ hnd] at hmem
    simp only [List.map_cons, List.reverse_cons] at hmem
    rw [List.take_left' (by simp [hlen])] at hmem
    have : k₀ ∈ rest.map Prod.fst := by simpa using hmem
    simp only [List.map_cons, List.nodup_cons] at hnd
    exact hnd.1 this
  · intro c k now e k₂ r₂ now₂ h hlen
    cases hf : c.order.find? fun p => p.1 == k with
    | none => rw [getByKey_none c k now hf] at h; exact absurd h (by simp)
    | some p =>
        have hk : p.1 = k := by simpa using List.find?_some hf
        by_cases hexp : p.2.expiresAt < now
        · rw [getByKey_some c k now p hf, if_pos hexp] at h
          exact absurd h (by simp)
        · rw [getByKey_some c k now p hf, if_neg hexp] at h ⊢
          have htail : (c.order.eraseP fun q => q.1 == k) ≠ [] := by
            have := List.length_eraseP_add_one (List.mem_of_find?_eq_some hf)
              (List.find?_some hf)
            exact List.ne_nil_of_length_pos (by omega)
          have := putByKey_keeps_head
            { c with order := p :: c.order.eraseP fun q => q.1 == k } p
            (c.order.eraseP fun q => q.1 == k) rfl htail k₂ r₂ now₂
          simpa [hk] using this

/-- Witness for C3: capacity 2, keys `"a"`, `"b"` inserted, `"a"` read
(promoting it), then fresh `"c"` inserted at capacity — `"a"` survives. -/
theorem claim3_witness :
    containsKey
      (putByKey
        ((getByKey (putAll (newCache 100 2) [("a", sampleResponse "r1"), ("b", sampleResponse "r2")] 0) "a" 0).2)
        "c" (sampleResponse "r3") 0) "a" = true := by
  have h := claim3_strict_lru_amended.2.2.2.2
    (putAll (newCache 100 2) [("a", sampleResponse "r1"), ("b", sampleResponse "r2")] 0)
    "a" 0 ⟨sampleResponse "r1", 100⟩ "c" (sampleResponse "r3") 0 (by decide) (by decide)
  exact h

/-! ### Claim C5 (corrected)

Both cache revisions test expiry with Go's strict `time.Now().After(e)`,
so an entry is still returned at the exact instant `expires_at`. -/

/-- Counterexample to C5 as stated: insert at `t₀ = 0` with `TTL = 10`;
a `Get` at `t = t₀ + TTL` (which satisfies `t ≥ t₀ + Δ`) still returns the
entry, because the code misses only when `expires_at < now` strictly. -/
theorem claim5_counterexample :
    (getByKey (putByKey (newCache 10 5) "a" (sampleResponse "r1") 0) "a" (0 + 10)).1 =
      some ⟨sampleResponse "r1", 10⟩ := by
  decide

/-- Claim C5, amended to the strict bound: for an entry inserted at `t₀`
with TTL `Δ`, a `Get` at any `t > t₀ + Δ` misses and removes the entry
(assuming the stored keys are distinct, the map/list invariant); and an
entry is never returned strictly after its `expires_at`. -/
theorem claim5_ttl_amended :
    (∀ (c : ExactCache) (k : String) (r : ChatResponse) (t₀ t : Int),
        c.keys.Nodup → t₀ + c.ttl < t →
          (getByKey (putByKey c k r t₀) k t).1 = none ∧
          containsKey (getByKey (putByKey c k r t₀) k t).2 k = false)
    ∧ (∀ (c : ExactCache) (k : String) (t : Int) (e : CacheEntry),
        (getByKey c k t).1 = some e → t ≤ e.expiresAt) := by
  constructor
  · intro c k r t₀ t hnd hexp
    obtain ⟨tail, horder, htail⟩ := putByKey_shape c k r t₀ hnd
    have hf : (putByKey c k r t₀).order.find? (fun p => p.1 == k) =
        some (k, ⟨r, t₀ + c.ttl⟩) := by
      rw [horder]
      exact List.find?_cons_of_pos _ (by simp)
    rw [getByKey_some _ k t _ hf, if_pos (by simpa using hexp)]
    refine ⟨rfl, ?_⟩
    show (((putByKey c k r t₀).order.eraseP fun q => q.1 == k).any fun q => q.1 == k) = false
    rw [horder, List.eraseP_cons_of_pos (by simp)]
    exact htail
  · intro c k t e h
    cases hf : c.order.find? fun p => p.1 == k with
    | none => rw [getByKey_none c k t hf] at h; exact absurd h (by simp)
    | some p =>
        rw [getByKey_some c k t p hf] at h
        by_cases hexp : p.2.expiresAt < t
        · rw [if_pos hexp] at h; exact absurd h (by simp)
        · rw [if_neg hexp] at h
          simp only [Option.some.injEq] at h
          rw [← h]
          omega

/-- Witness for C5: insert at `t₀ = 0`, TTL 10, read at `t = 11`: miss and
the entry is gone. -/
theorem claim5_witness :
    (getByKey (putByKey (newCache 10 5) "a" (sampleResponse "r1") 0) "a" 11).1 = none ∧
    containsKey (getByKey (putByKey (newCache 10 5) "a" (sampleResponse "r1") 0) "a" 11).2 "a" =
      false :=
  claim5_ttl_amended.1 (newCache 10 5) "a" (sampleResponse "r1") 0 11 (by decide) (by decide)

/-- Claim C2: when the semantic lookup completes first with a hit, the
stage cancels dispatch and returns the HIT proxy response built from the
stored cached response: `cache_status = "HIT"`,
`provider_name = "semantic_cache"`, `cost = 0`, and `chat_response` is the
stored response itself (so its id equals the stored id). -/
theorem claim2_buffered_semantic_hit (r : ChatResponse) (emb : Option (List Rat))
    (rest : List BufRaceMsg) :
    processBuffered (BufRaceMsg.semantic (some r) emb :: rest) =
      BufOutcome.hit (semanticHitProxyResponse r) true
    ∧ (semanticHitProxyResponse r).cacheStatus = "HIT"
    ∧ (semanticHitProxyResponse r).providerName = "semantic_cache"
    ∧ (semanticHitProxyResponse r).cost = 0
    ∧ (semanticHitProxyResponse r).chatResponse = some r
    ∧ (semanticHitProxyResponse r).chatResponse.map ChatResponse.id = some r.id :=
  ⟨rfl, rfl, rfl, rfl, rfl, rfl⟩

/-- Claim C6: the exact-cache key is a pure function of
`(model, messages, temperature, top_p)` — two requests agreeing on those
four fields get the identical SHA-256 key, whatever their other fields
(`stream`, `n`, `max_tokens`, `user`, …). -/
theorem claim6_key_pure_function (r₁ r₂ : ChatRequest)
    (hm : r₁.model = r₂.model) (hmsg : r₁.messages = r₂.messages)
    (ht : r₁.temperature = r₂.temperature) (hp : r₁.topP = r₂.topP) :
    keyFor r₁ = keyFor r₂ := by
  unfold keyFor
  rw [hm, hmsg, ht, hp]

/-- Witness for C6: two concrete requests differing only in `stream`, `n`,
`max_tokens` and `user` share the key. -/
theorem claim6_witness :
    keyFor ⟨"gpt-4o", [⟨"user", "hello"⟩], some 0, none, none, false, none, ""⟩ =
      keyFor ⟨"gpt-4o", [⟨"user", "hello"⟩], some 0, none, some 2, true, some 100, "u1"⟩ :=
  claim6_key_pure_function _ _ rfl rfl rfl rfl

/-- Claim C4: with the stage as wired by the handler
(`NewCacheStage(exactCache, true)`), a request with temperature explicitly
`> 0` consults neither cache — the exact-cache stage returns a nil
response without touching the cache, and the semantic-dispatch stage
delegates directly to bare dispatch; with temperature absent or `0`, both
caches are consulted. -/
theorem claim4_temperature_gating :
    (∀ (c : ExactCache) (req : ChatRequest) (now : Int) (t : Rat),
        req.temperature = some t → 0 < t →
          cacheStageProcess true c req now = (none, c, false) ∧
          semanticDispatchPath req = SemanticPath.direct)
    ∧ (∀ (c : ExactCache) (req : ChatRequest) (now : Int),
        req.temperature = none ∨ req.temperature = some 0 →
          (cacheStageProcess true c req now).2.2 = true ∧
          semanticDispatchPath req = SemanticPath.race) := by
  constructor
  · intro c req now t ht hpos
    have hskip : cacheShouldSkip true req = true := by
      simp [cacheShouldSkip, ht, hpos]
    have hskip2 : semanticShouldSkip req = true := by
      simp [semanticShouldSkip, ht, hpos]
    exact ⟨by simp [cacheStageProcess, hskip], by simp [semanticDispatchPath, hskip2]⟩
  · intro c req now ht
    have hskip : cacheShouldSkip true req = false := by
      rcases ht with h | h <;> simp [cacheShouldSkip, h]
    have hskip2 : semanticShouldSkip req = false := by
      rcases ht with h | h <;> simp [semanticShouldSkip, h]
    refine ⟨?_, by simp [semanticDispatchPath, hskip2]⟩
    simp only [cacheStageProcess, hskip, Bool.false_eq_true, if_false]
    cases (getByKey c (keyFor req) now).1 <;> rfl

/-- Witness for C4: temperature `1` skips both caches. -/
theorem claim4_witness :
    cacheStageProcess true (newCache 10 5) (sampleRequest (some 1)) 0 =
      (none, newCache 10 5, false) ∧
    semanticDispatchPath (sampleRequest (some 1)) = SemanticPath.direct :=
  claim4_temperature_gating.1 (newCache 10 5) (sampleRequest (some 1)) 0 1 rfl (by decide)

theorem emitContentChunks_length (resp : ChatResponse) (now : Int) (cs : List Choice) :
    (emitContentChunks resp now cs).length = cs.length := by
  induction cs with
  | nil => rfl
  | cons ch rest ih => simp [emitContentChunks, ih]

theorem emitContentChunks_get (resp : ChatResponse) (now : Int) :
    ∀ (cs : List Choice) (i : Nat) (ch : Choice), cs[i]? = some ch →
      (emitContentChunks resp now cs)[i]? =
        some ⟨resp.id, "chat.completion.chunk", now, resp.model,
          [⟨ch.index, ⟨"", ch.message.content⟩, ""⟩], none⟩ := by
  intro cs
  induction cs with
  | nil => intro i ch h; simp at h
  | cons c rest ih =>
      intro i ch h
      cases i with
      | zero => simp at h; simp [emitContentChunks, h]
      | succ j =>
          simp only [List.getElem?_cons_succ] at h
          simpa [emitContentChunks] using ih j ch h

theorem streamContent_emit (resp : ChatResponse) (now : Int) (tail : List ChatStreamChunk)
    (cs : List Choice) :
    streamContent (emitContentChunks resp now cs ++ tail) =
      choicesContent cs ++ streamContent tail := by
  induction cs with
  | nil => simp [emitContentChunks, choicesContent, String.empty_append]
  | cons ch rest ih =>
      simp only [emitContentChunks, List.cons_append, streamContent, choicesContent,
        chunkDeltaContent, List.append_eq, ih, String.append_empty]
      rw [String.append_assoc]

/-- Claim C7: replaying a buffered response emits, in order, a role chunk
with `delta.role = "assistant"`, one content chunk per choice carrying
that choice's `message.content` and `index`, a terminal chunk with empty
delta, `finish_reason = "stop"` and the original usage, then the `[DONE]`
terminator; concatenating `delta.content` across the emitted chunks
reproduces the original `choices[*].message.content`. -/
theorem claim7_replay_roundtrip (resp : ChatResponse) (now : Int) :
    (writeResponseAsSSE resp now).1.length = resp.choices.length + 2
    ∧ (writeResponseAsSSE resp now).1.head? =
        some ⟨resp.id, "chat.completion.chunk", now, resp.model,
          [⟨0, ⟨"assistant", ""⟩, ""⟩], none⟩
    ∧ (∀ (i : Nat) (ch : Choice), resp.choices[i]? = some ch →
        (writeResponseAsSSE resp now).1[i + 1]? =
          some ⟨resp.id, "chat.completion.chunk", now, resp.model,
            [⟨ch.index, ⟨"", ch.message.content⟩, ""⟩], none⟩)
    ∧ (writeResponseAsSSE resp now).1.getLast? =
        some ⟨resp.id, "chat.completion.chunk", now, resp.model,
          [⟨0, ⟨"", ""⟩, "stop"⟩], some resp.usage⟩
    ∧ (writeResponseAsSSE resp now).2 = true
    ∧ streamContent (writeResponseAsSSE resp now).1 = choicesContent resp.choices := by
  refine ⟨?_, rfl, ?_, ?_, rfl, ?_⟩
  · simp [writeResponseAsSSE, emitContentChunks_length]
  · intro i ch h
    have hi : i < resp.choices.length := by
      by_contra hge
      rw [List.getElem?_eq_none (by omega)] at h
      exact absurd h (by simp)
    simp only [writeResponseAsSSE, List.getElem?_cons_succ]
    rw [List.getElem?_append_left (by rw [emitContentChunks_length]; omega)]
    exact emitContentChunks_get resp now resp.choices i ch h
  · simp only [writeResponseAsSSE]
    rw [← List.cons_append, List.getLast?_concat]
  · simp only [writeResponseAsSSE, streamContent, chunkDeltaContent]
    rw [streamContent_emit]
    simp only [streamContent, chunkDeltaContent]
    rw [String.append_empty, String.append_empty, String.empty_append, String.append_empty]

/-- Witness for C7: the second emitted chunk of the sample replay carries
the sample's single choice content. -/
theorem claim7_witness :
    (writeResponseAsSSE (sampleResponse "r1") 0).1[1]? =
      some ⟨"r1", "chat.completion.chunk", 0, "gpt-4o", [⟨0, ⟨"", "Hello!"⟩, ""⟩], none⟩ :=
  (claim7_replay_roundtrip (sampleResponse "r1") 0).2.2.1 0
    ⟨0, ⟨"assistant", "Hello!"⟩, "stop"⟩ rfl

/-- Claim C8: every error path of the semantic lookup produces a miss with
a nil error; an embedding failure yields a nil embedding, while a search
failure (or empty / payload-less / response-less result) after a
successful embedding still returns the computed embedding. -/
theorem claim8_lookup_fail_open (req : ChatRequest) (er : EmbedResult) (sr : SearchResult) :
    ((semanticLookup req er sr).2.2.2 = none)
    ∧ (er = EmbedResult.failure → semanticLookup req er sr = (none, none, "", none))
    ∧ (∀ emb, er = EmbedResult.success emb → sr = SearchResult.failure →
        semanticLookup req er sr = (none, some emb, textFromMessages req.messages, none))
    ∧ (∀ emb results, er = EmbedResult.success emb → sr = SearchResult.success results →
        (results = [] ∨
          ∃ r rest, results = r :: rest ∧
            (r.payload = none ∨ ∃ pl, r.payload = some pl ∧ pl.response = none)) →
        (semanticLookup req er sr).1 = none ∧
          (semanticLookup req er sr).2.1 = some emb) := by
  refine ⟨?_, ?_, ?_, ?_⟩
  · cases er with
    | failure => rfl
    | success emb =>
        cases sr with
        | failure => rfl
        | success results =>
            cases results with
            | nil => rfl
            | cons r rest =>
                cases hp : r.payload with
                | none => simp [semanticLookup, hp]
                | some pl =>
                    cases hr : pl.response with
                    | none => simp [semanticLookup, hp, hr]
                    | some resp => simp [semanticLookup, hp, hr]
  · rintro rfl
    rfl
  · rintro emb rfl rfl
    rfl
  · rintro emb results rfl rfl hcase
    rcases hcase with rfl | ⟨r, rest, rfl, hpl⟩
    · exact ⟨rfl, rfl⟩
    · rcases hpl with hnone | ⟨pl, hpl, hresp⟩
      · simp [semanticLookup, hnone]
      · simp [semanticLookup, hpl, hresp]

/-- Witness for C8: an embedding failure reduces to
`(miss, nil, "", nil)`. -/
theorem claim8_witness :
    semanticLookup (sampleRequest none) EmbedResult.failure SearchResult.failure =
      (none, none, "", none) :=
  (claim8_lookup_fail_open (sampleRequest none) EmbedResult.failure SearchResult.failure).2.1 rfl

theorem anthRun_append (now : Int) (l₁ l₂ : List AnthEvent) :
    ∀ st : AnthStreamState, anthRun now st (l₁ ++ l₂) = anthRun now (anthRun now st l₁) l₂ := by
  induction l₁ with
  | nil => intro st; rfl
  | cons e es ih => intro st; exact ih _

/-- The usage-sum equation is preserved by every event except
`message_start`. -/
theorem anthRun_preserves_sum (now : Int) (es : List AnthEvent)
    (hno : es.all (fun e => !isMessageStart e) = true) :
    ∀ st : AnthStreamState,
      st.usage.totalTokens = st.usage.promptTokens + st.usage.completionTokens →
      (anthRun now st es).usage.totalTokens =
        (anthRun now st es).usage.promptTokens + (anthRun now st es).usage.completionTokens := by
  induction es with
  | nil => intro st h; exact h
  | cons e es ih =>
      intro st h
      simp only [List.all_cons, Bool.and_eq_true] at hno
      have hstep : (anthStep now st e).1.usage.totalTokens =
          (anthStep now st e).1.usage.promptTokens +
            (anthStep now st e).1.usage.completionTokens := by
        cases e with
        | messageStart mid mname itok => simp [isMessageStart] at hno
        | contentBlockDelta text => exact h
        | messageDelta sr otok => simp [anthStep]
        | messageStop => exact h
        | otherEvent => exact h
      exact ih hno.2 _ hstep

/-- Counterexample to C9 as stated: a Gemini payload whose upstream
`usageMetadata` reports `totalTokenCount = 5` with `promptTokenCount = 1`
and `candidatesTokenCount = 2` is copied verbatim by `Google.Chat`, so
the produced response has both token counts known yet
`total_tokens ≠ prompt_tokens + completion_tokens`. -/
theorem claim9_counterexample :
    (googleChat ⟨[], some ⟨1, 2, 5⟩⟩ "gen-1" 0 "gemini-pro").usage.promptTokens = 1
    ∧ (googleChat ⟨[], some ⟨1, 2, 5⟩⟩ "gen-1" 0 "gemini-pro").usage.completionTokens = 2
    ∧ (googleChat ⟨[], some ⟨1, 2, 5⟩⟩ "gen-1" 0 "gemini-pro").usage.totalTokens ≠
        (googleChat ⟨[], some ⟨1, 2, 5⟩⟩ "gen-1" 0 "gemini-pro").usage.promptTokens +
          (googleChat ⟨[], some ⟨1, 2, 5⟩⟩ "gen-1" 0 "gemini-pro").usage.completionTokens := by
  refine ⟨rfl, rfl, by decide⟩

/-- Claim C9, amended: the Anthropic adapter computes
`total_tokens = prompt + completion` itself, in buffered mode always and
in streaming mode from the `message_delta` event on (as long as no later
`message_start` overwrites the prompt count); the Gemini adapter instead
copies the upstream usage triple verbatim, so its equation holds only when
the upstream payload satisfies it (see the counterexample). -/
theorem claim9_usage_sum_amended :
    (∀ (ar : AnthResponse) (now : Int),
        (anthropicChat ar now).usage.totalTokens =
          (anthropicChat ar now).usage.promptTokens +
            (anthropicChat ar now).usage.completionTokens)
    ∧ (∀ (now : Int) (pre post : List AnthEvent) (sr : String) (otok : Int),
        post.all (fun e => !isMessageStart e) = true →
          (anthRun now anthInitState
              (pre ++ AnthEvent.messageDelta sr otok :: post)).usage.totalTokens =
            (anthRun now anthInitState
                (pre ++ AnthEvent.messageDelta sr otok :: post)).usage.promptTokens +
              (anthRun now anthInitState
                  (pre ++ AnthEvent.messageDelta sr otok :: post)).usage.completionTokens)
    ∧ (∀ (gr : GeminiResponse) (gu : GeminiUsage) (genId reqModel : String) (now : Int),
        gr.usageMetadata = some gu →
          (googleChat gr genId now reqModel).usage =
            ⟨gu.promptTokenCount, gu.candidatesTokenCount, gu.totalTokenCount⟩) := by
  refine ⟨fun ar now => rfl, ?_, ?_⟩
  · intro now pre post sr otok hno
    rw [show (pre ++ AnthEvent.messageDelta sr otok :: post) =
      ((pre ++ [AnthEvent.messageDelta sr otok]) ++ post) by simp]
    rw [anthRun_append]
    refine anthRun_preserves_sum now post hno _ ?_
    rw [anthRun_append]
    simp [anthRun, anthStep]
  · intro gr gu genId reqModel now h
    simp [googleChat, h]

/-- Witness for C9: the Anthropic stream `message_start(input=7)` then
`message_delta(output=4)` ends with usage `⟨7, 4, 11⟩`; a Gemini payload
with a consistent upstream triple is copied as is. -/
theorem claim9_witness :
    (anthRun 0 anthInitState
        [AnthEvent.messageStart "m1" "claude" 7,
         AnthEvent.messageDelta "end_turn" 4, AnthEvent.messageStop]).usage.totalTokens =
      (anthRun 0 anthInitState
          [AnthEvent.messageStart "m1" "claude" 7,
           AnthEvent.messageDelta "end_turn" 4, AnthEvent.messageStop]).usage.promptTokens +
        (anthRun 0 anthInitState
            [AnthEvent.messageStart "m1" "claude" 7,
             AnthEvent.messageDelta "end_turn" 4, AnthEvent.messageStop]).usage.completionTokens ∧
    (googleChat ⟨[], some ⟨3, 4, 7⟩⟩ "g" 0 "m").usage = ⟨3, 4, 7⟩ :=
  ⟨claim9_usage_sum_amended.2.1 0 [AnthEvent.messageStart "m1" "claude" 7] [AnthEvent.messageStop]
      "end_turn" 4 (by decide),
    claim9_usage_sum_amended.2.2 ⟨[], some ⟨3, 4, 7⟩⟩ ⟨3, 4, 7⟩ "g" "m" 0 rfl⟩

/-- Claim C10: both `Google.Chat` and the per-payload chunk of
`Google.ChatStream` are built from only the first candidate and only that
candidate's first content part — text in additional parts or additional
candidates never reaches the canonical output — and the output always
carries exactly one choice. -/
theorem claim10_gemini_first_candidate :
    (∀ (genId reqModel : String) (now : Int) (r : String) (p : GeminiPart)
        (ps : List GeminiPart) (f : String) (cs : List GeminiCandidate)
        (u : Option GeminiUsage),
        googleChat ⟨⟨⟨r, p :: ps⟩, f⟩ :: cs, u⟩ genId now reqModel =
          googleChat ⟨[⟨⟨r, [p]⟩, f⟩], u⟩ genId now reqModel)
    ∧ (∀ (genId reqModel : String) (created : Int) (r : String) (p : GeminiPart)
        (ps : List GeminiPart) (f : String) (cs : List GeminiCandidate)
        (u : Option GeminiUsage),
        googleStreamChunk ⟨⟨⟨r, p :: ps⟩, f⟩ :: cs, u⟩ genId created reqModel =
          googleStreamChunk ⟨[⟨⟨r, [p]⟩, f⟩], u⟩ genId created reqModel)
    ∧ (∀ (gr : GeminiResponse) (genId reqModel : String) (now : Int),
        (googleChat gr genId now reqModel).choices.length = 1) :=
  ⟨fun _ _ _ _ _ _ _ _ _ => rfl, fun _ _ _ _ _ _ _ _ _ => rfl, fun _ _ _ _ => rfl⟩

end QLite
